import Mathlib

/-!
Verification of the parversion analysis core against its specification.

The development shallowly embeds the Rust sources (`src/lineage.rs`,
`src/profile.rs`, `src/provider.rs`, `src/analysis.rs`,
`src/basis_network.rs`) into Lean.  Pure functions become Lean functions;
stateful operations are modelled by explicit state passing; fallible
operations return `Except`/`Option`; a computation that can `panic!` or
`unwrap`/`expect` its way into an abort is modelled with an explicit
`RunResult` outcome type.  Machine floating point (only used for the Jaccard
ratio, which compares small exact fractions against the literal `0.8`) is
modelled by exact rationals; for every concrete input appearing below the
`f64` computation and the rational computation agree, because the quotients
involved are exactly representable comparisons against `0.8 = 4/5`.
-/

namespace Parversion

/-- Modelled from the spec: `src/hash.rs` is not among the provided sources.
The spec (section 3) describes a Hash as an opaque content digest with two
states, open and finalized; `finalize` idempotently closes a hash and
`from_items` combines hashes into a new open hash.  The digest payload is
modelled as a natural number, combined injectively with `Nat.pair`. -/
structure Hash where
  value : Nat
  finalized : Bool
deriving DecidableEq

def Hash.new : Hash := ⟨0, false⟩

def Hash.is_unfinalized (h : Hash) : Bool := !h.finalized

def Hash.finalize (h : Hash) : Hash := ⟨h.value, true⟩

def Hash.from_items (items : List Hash) : Hash :=
  ⟨items.foldl (fun acc h => Nat.pair acc h.value) 0, false⟩

/-- Model of `derive_identity` from `src/lineage.rs`: finalize any unfinalized source
hash, combine the hashes with `Hash::from_items`, then finalize the result. -/
def derive_identity (source_hashes : List Hash) : Hash :=
  let hashes := source_hashes.map (fun h => if h.is_unfinalized then h.finalize else h)
  (Hash.from_items hashes).finalize

/-- Model of `Lineage` from `src/lineage.rs`: an ordered sequence of source hashes plus
an identity hash derived from that sequence. -/
structure Lineage where
  source_hashes : List Hash
  identity_hash : Hash
deriving DecidableEq

def Lineage.new : Lineage := ⟨[], Hash.new⟩

def Lineage.from_hashes (source_hashes : List Hash) : Lineage :=
  ⟨source_hashes, derive_identity source_hashes⟩

/-- Model of `Lineage::with_hash` from `src/lineage.rs`: push the new hash onto a copy
of the source sequence and recompute the identity hash over the entire
resulting sequence. -/
def Lineage.with_hash (l : Lineage) (h : Hash) : Lineage :=
  ⟨l.source_hashes ++ [h], derive_identity (l.source_hashes ++ [h])⟩

/-- The manual `PartialEq` implementation for `Lineage` in `src/lineage.rs`:
equality compares only the identity hashes. -/
def lineage_eq (a b : Lineage) : Bool :=
  a.identity_hash = b.identity_hash

/-- Model of `Runtime` tag of a transformation; `src/analysis.rs` names the variant
`Runtime::QuickJS` (`src/transformation.rs` itself is not among the provided
sources). -/
inductive Runtime where
  | QuickJS
deriving DecidableEq

/-- Modelled from the spec: `src/transformation.rs` is absent.  Section 4.6
describes a transformation as a runtime identifier plus a code body. -/
structure XMLElementTransformation where
  runtime : Runtime
  code : String
deriving DecidableEq

/-- Modelled from the spec: `src/transformation.rs` is absent.  The pluggable
hash transformation of section 3 is likewise a runtime tag plus code body. -/
structure HashTransformation where
  runtime : Runtime
  code : String
deriving DecidableEq

/-- Modelled from the spec: `src/transformation.rs` is absent.  A Field
Transformation (section 4.6) is an executable unit with a runtime tag and a
code body; `src/analysis.rs` additionally gives such records an `id`. -/
structure FieldTransformation where
  id : Nat
  runtime : Runtime
  code : String
deriving DecidableEq

/-- Model of `DataNodeFieldsTransform` as constructed in `src/analysis.rs` (fields
`id`, `runtime`, `code`). -/
structure DataNodeFieldsTransform where
  id : Nat
  runtime : Runtime
  code : String
deriving DecidableEq

/-- Model of `Profile` from `src/profile.rs`.  The `ID` type is not among the provided
sources and is modelled as a natural number. -/
structure Profile where
  id : Nat
  description : String
  features : Finset Hash
  xml_element_transformation : Option XMLElementTransformation
  hash_transformation : Option HashTransformation
  meaningful_fields : Option (List String)
deriving DecidableEq

/-- Model of `jaccard_similarity` from `src/profile.rs`: intersection size over union
size, with the empty-union case yielding `1.0`.  The Rust code divides `f64`
values; the model uses exact rationals. -/
def jaccard_similarity (set_a set_b : Finset Hash) : ℚ :=
  let inter := set_a ∩ set_b
  let uni := set_a ∪ set_b
  if uni = ∅ then 1 else (inter.card : ℚ) / (uni.card : ℚ)

/-- Model of `Profile::get_similar_profile` from `src/profile.rs`: the first stored
profile whose Jaccard similarity with the queried features is strictly
greater than `0.8` (the Rust comparison is `similarity > 0.8`). -/
def Profile.get_similar_profile (profiles : List Profile) (features : Finset Hash) :
    Option Profile :=
  profiles.find? (fun profile =>
    decide (jaccard_similarity features profile.features > (4 : ℚ) / 5))

/-- Error enum of the crate (`src/error.rs` is not among the provided
sources); the variants below are the ones `src/provider.rs` constructs, plus
one for a failing oracle call. -/
inductive Errors where
  | FileReadError
  | YamlParseError
  | UnexpectedError
  | OracleError
deriving DecidableEq

/-- Modelled from the spec: `src/data_node.rs` is absent.  Section 3
describes a Data Node as fields, a description, a content hash and a lineage;
`src/analysis.rs` reads `hash` and `description` from it. -/
structure DataNode where
  fields : List (String × String)
  description : String
  hash : Hash
  lineage : Lineage
deriving DecidableEq

/-- Modelled from the spec: `src/context.rs` is absent.  A Context (section
3) pairs a Data Node with its Lineage; `src/analysis.rs` reads both. -/
structure Context where
  data_node : DataNode
  lineage : Lineage
deriving DecidableEq

/-- Modelled from the spec: `src/context_group.rs` is absent.  A Context
Group (section 3) is all Contexts sharing one Lineage; `src/analysis.rs`
reads `lineage` and `contexts`. -/
structure ContextGroup where
  lineage : Lineage
  contexts : List Context
deriving DecidableEq

/-- Model of `BasisNode` as constructed in `src/analysis.rs` and consumed by
`src/provider.rs` (`src/basis_node.rs` is not among the provided sources; the
field list matches the construction site and the spec, section 3). -/
structure BasisNode where
  id : Nat
  hash : Hash
  description : String
  lineage : Lineage
  transformations : List FieldTransformation
deriving DecidableEq

/-- Model of `YamlFileProvider::save_basis_node` from `src/provider.rs`.  The durable
state is modelled as the `basis_nodes` sequence of the YAML document (an
absent key behaves as the empty sequence).  The source pushes the serialized
node onto the sequence unconditionally; the `lineage` key argument is not
consulted. -/
def save_basis_node (store : List BasisNode) (lineage : Lineage) (basis_node : BasisNode) :
    List BasisNode :=
  store ++ [basis_node]

/-- Model of `YamlFileProvider::get_basis_node_by_lineage` from `src/provider.rs`:
scan the stored sequence in order and return the first node whose lineage
compares equal (via the `PartialEq` of `Lineage`, i.e. identity hashes). -/
def get_basis_node_by_lineage (store : List BasisNode) (lineage : Lineage) :
    Option BasisNode :=
  store.find? (fun basis_node => lineage_eq basis_node.lineage lineage)

/-- Outcome of one fallible unit of work: a value, an explicit `Errors`
value (Rust `Err`), or an abort through `panic!`/`unwrap`/`expect`/
`unimplemented!` carrying the panic message. -/
inductive RunResult (α : Type) where
  | ok (value : α)
  | err (error : Errors)
  | panicked (message : String)

def RunResult.isOk {α : Type} : RunResult α → Bool
  | .ok _ => true
  | _ => false

/-- Model of `NodeAnalysis::get_basis_node` from `src/analysis.rs`.  Effects are made
explicit: `lookup` is the provider's `get_basis_node_by_lineage`, `oracle` is
`LLM::get_field_transformations`, `fresh_id` stands for `ID::new()`.  The
returned triple carries the basis node, the number of oracle invocations
performed, and the list of `save_basis_node` calls issued (in order, as
`(lineage, node)` pairs).  The source unwraps `contexts.first()` before the
provider lookup, so an empty group panics in either branch. -/
def get_basis_node
    (lookup : Lineage → Except Errors (Option BasisNode))
    (oracle : ContextGroup → Except Errors (List FieldTransformation))
    (fresh_id : Nat)
    (context_group : ContextGroup) :
    RunResult (BasisNode × Nat × List (Lineage × BasisNode)) :=
  match context_group.contexts.head? with
  | none => RunResult.panicked "called Option::unwrap on a None value"
  | some context =>
    let lineage := context_group.lineage
    let hash := context.data_node.hash
    let description := context.data_node.description
    match lookup lineage with
    | Except.error e => RunResult.err e
    | Except.ok (some basis_node) => RunResult.ok (basis_node, 0, [])
    | Except.ok none =>
      match oracle context_group with
      | Except.error e => RunResult.err e
      | Except.ok field_transformations =>
        let basis_node : BasisNode :=
          ⟨fresh_id, hash, description, lineage, field_transformations⟩
        RunResult.ok (basis_node, 1, [(lineage, basis_node)])

/-- The subset of `serde_json::Value` that `NetworkAnalysis::get_basis_network`
can place in its `result` map: every inserted scalar is a JSON string (the
trimmed field value), and repetition promotes it to an array. -/
inductive JsonValue where
  | str (s : String)
  | arr (values : List JsonValue)

/-- Modelled from the spec: `src/json_node.rs` is absent.  `src/analysis.rs`
reads `json_node.json.key` and `json_node.json.value`, both strings. -/
structure JsonNodeData where
  key : String
  value : String
deriving DecidableEq

/-- First-binding lookup in an association list; models `HashMap` reads keyed
by strings, where each key has at most one binding. -/
def lookup_key {α : Type} (entries : List (String × α)) (key : String) : Option α :=
  (entries.find? (fun p => p.1 == key)).map (fun p => p.2)

/-- Model of `HashMap::contains_key` on the association-list model. -/
def contains_key {α : Type} (entries : List (String × α)) (key : String) : Bool :=
  entries.any (fun p => p.1 == key)

/-- One accumulation step of the merge in `NetworkAnalysis::get_basis_network`
(`src/analysis.rs`, the `result` map update): an absent key stores the value;
a present array pushes onto it; any other present value is replaced by the
two-element array of the original then the new value. -/
def merge_json_pair (result : List (String × JsonValue)) (key : String) (value : JsonValue) :
    List (String × JsonValue) :=
  match result with
  | [] => [(key, value)]
  | (k, v) :: rest =>
    if k == key then
      match v with
      | JsonValue.arr values => (k, JsonValue.arr (values ++ [value])) :: rest
      | other => (k, JsonValue.arr [other, value]) :: rest
    else (k, v) :: merge_json_pair rest key value

/-- The merge of `src/analysis.rs` applied to a whole run of JSON nodes in
visitation order: each node contributes its trimmed value under its key. -/
def merge_json_pairs (json_nodes : List JsonNodeData) : List (String × JsonValue) :=
  json_nodes.foldl
    (fun result j => merge_json_pair result j.key (JsonValue.str j.value.trim)) []

/-- Specification-side description of the accumulated value for one key: a
single occurrence stays a scalar, two or more become the ordered array. -/
def accumulated_value : List String → Option JsonValue
  | [] => none
  | [v] => some (JsonValue.str v)
  | vs => some (JsonValue.arr (vs.map JsonValue.str))

/-- Modelled from the spec: `src/graph_node.rs` is absent.  Section 3
describes a Graph Node as wrapping a Data Node with child links and a
subgraph hash; `src/analysis.rs` reads `id`, `description`, `subgraph_hash`
and `children`.  The graph built by the traversal is tree-shaped. -/
inductive GraphNode where
  | node (id : Nat) (description : String) (subgraph_hash : String)
      (children : List GraphNode)

def GraphNode.id : GraphNode → Nat
  | .node i _ _ _ => i

def GraphNode.description : GraphNode → String
  | .node _ d _ _ => d

def GraphNode.subgraph_hash : GraphNode → String
  | .node _ _ h _ => h

def GraphNode.children : GraphNode → List GraphNode
  | .node _ _ _ cs => cs

mutual

def GraphNode.size : GraphNode → Nat
  | .node _ _ _ cs => 1 + forest_size cs

def forest_size : List GraphNode → Nat
  | [] => 0
  | t :: ts => GraphNode.size t + forest_size ts

end

/-- The visitation order of the queue-based breadth-first walks in
`src/analysis.rs`: pop the front node, then push its children at the back. -/
def bfs_order : List GraphNode → List GraphNode
  | [] => []
  | t :: rest => t :: bfs_order (rest ++ t.children)
termination_by queue => forest_size queue
decreasing_by
  have happ : ∀ (l1 l2 : List GraphNode),
      forest_size (l1 ++ l2) = forest_size l1 + forest_size l2 := by
    intro l1 l2
    induction l1 with
    | nil => simp [forest_size]
    | cons x xs ih => simp [forest_size, ih]; omega
  cases t with
  | node i d h cs => simp [happ, forest_size, GraphNode.children, GraphNode.size]; omega

/-- Phase A of `NetworkAnalysis::get_basis_networks` (`src/analysis.rs`):
breadth-first queue processing from the root; a leaf is skipped entirely; a
non-leaf whose subgraph hash is not yet a key of the map is recorded as the
representative for that hash, and its children are enqueued.  The `HashMap`
is modelled as an association list in insertion order. -/
def unique_subgraphs_loop :
    List GraphNode → List (String × GraphNode) → List (String × GraphNode)
  | [], acc => acc
  | current :: rest, acc =>
    if current.children.isEmpty then
      unique_subgraphs_loop rest acc
    else
      let acc2 :=
        if contains_key acc current.subgraph_hash then acc
        else acc ++ [(current.subgraph_hash, current)]
      unique_subgraphs_loop (rest ++ current.children) acc2
termination_by queue _ => forest_size queue
decreasing_by
  · cases current with
    | node i d h cs => simp [forest_size, GraphNode.size]; try omega
  · have happ : ∀ (l1 l2 : List GraphNode),
        forest_size (l1 ++ l2) = forest_size l1 + forest_size l2 := by
      intro l1 l2
      induction l1 with
      | nil => simp [forest_size]
      | cons x xs ih => simp [forest_size, ih]; omega
    cases current with
    | node i d h cs =>
      simp [happ, forest_size, GraphNode.children, GraphNode.size]; omega

/-- The unique-subgraph map produced from the graph root. -/
def unique_subgraphs (root : GraphNode) : List (String × GraphNode) :=
  unique_subgraphs_loop [root] []

/-- Specification-side description of a Phase A representative: the first
node in breadth-first order that has children and carries the hash. -/
def first_nonleaf_with_hash (nodes : List GraphNode) (h : String) : Option GraphNode :=
  nodes.find? (fun n => !n.children.isEmpty && n.subgraph_hash == h)

/-- Modelled from the spec: `src/transformation.rs` is absent.  Section 4.6:
evaluating a Field Transformation against a Data Node yields a JSON key/value
pair, the elimination signal, or a failure (malformed code, runtime
exception) distinguishable from elimination. -/
inductive TransformOutcome where
  | success (json : JsonNodeData)
  | eliminated
  | failure (message : String)

/-- The transformation application loop inside
`NetworkAnalysis::get_basis_network` (`src/analysis.rs`): every transformation
of the basis node is applied through
`transformation.transform(..).expect("Could not transform data node field")`,
so any outcome other than a successful JSON node aborts the task with that
panic message. -/
def apply_transformations
    (transform : FieldTransformation → DataNode → TransformOutcome)
    (transformations : List FieldTransformation)
    (data_node : DataNode) : RunResult (List JsonNodeData) :=
  match transformations with
  | [] => RunResult.ok []
  | t :: rest =>
    match transform t data_node with
    | TransformOutcome.success json =>
      match apply_transformations transform rest data_node with
      | RunResult.ok jsons => RunResult.ok (json :: jsons)
      | RunResult.err e => RunResult.err e
      | RunResult.panicked m => RunResult.panicked m
    | TransformOutcome.eliminated =>
      RunResult.panicked "Could not transform data node field"
    | TransformOutcome.failure _ =>
      RunResult.panicked "Could not transform data node field"

/-- The breadth-first merge walk of `NetworkAnalysis::get_basis_network`
(`src/analysis.rs`): pop a node, enqueue its children, resolve its Context
from the meta context map (`unwrap` panics when absent), look up the Basis
Node by the Context's lineage (a missing node is logged and skipped), apply
its transformations, and fold every produced JSON node into the accumulated
`result` map (trimmed value under its key). -/
def walk_merge
    (lookup : Lineage → Except Errors (Option BasisNode))
    (contexts : Nat → Option Context)
    (transform : FieldTransformation → DataNode → TransformOutcome) :
    List GraphNode → List (String × JsonValue) → RunResult (List (String × JsonValue))
  | [], result => RunResult.ok result
  | current :: rest, result =>
    let queue := rest ++ current.children
    match contexts current.id with
    | none => RunResult.panicked "called Option::unwrap on a None value"
    | some context =>
      match lookup context.lineage with
      | Except.error e => RunResult.err e
      | Except.ok none => walk_merge lookup contexts transform queue result
      | Except.ok (some basis_node) =>
        match apply_transformations transform basis_node.transformations context.data_node with
        | RunResult.err e => RunResult.err e
        | RunResult.panicked m => RunResult.panicked m
        | RunResult.ok json_nodes =>
          let result2 := json_nodes.foldl
            (fun r j => merge_json_pair r j.key (JsonValue.str j.value.trim)) result
          walk_merge lookup contexts transform queue result2
termination_by queue _ => forest_size queue
decreasing_by
  all_goals
    have happ : ∀ (l1 l2 : List GraphNode),
        forest_size (l1 ++ l2) = forest_size l1 + forest_size l2 := by
      intro l1 l2
      induction l1 with
      | nil => simp [forest_size]
      | cons x xs ih => simp [forest_size, ih]; omega
  all_goals
    cases current with
    | node i d h cs =>
      simp [happ, forest_size, GraphNode.children, GraphNode.size]; omega

/-- Model of `NetworkRelationship` as constructed in `src/analysis.rs`: the literal
passes a `Recursion` carrying a lineage and a `DataNodeFieldsTransform` (note
that `src/basis_network.rs` declares `Recursion` with a `lineage` field only;
the construction site does not match that declaration). -/
structure AnalysisRecursion where
  lineage : Lineage
  transformation : DataNodeFieldsTransform

inductive AnalysisNetworkRelationship where
  | recursionRel (r : AnalysisRecursion)
  | associationRel (subgraph_hashes : List String)
  | nullRel

def AnalysisNetworkRelationship.isRecursion : AnalysisNetworkRelationship → Bool
  | .recursionRel _ => true
  | _ => false

/-- The value constructed at the end of `NetworkAnalysis::get_basis_network`
(`src/analysis.rs`).  The source sets only `id`, `description` and
`relationship`; the `name` and `subgraph_hash` fields that
`src/basis_network.rs` declares for `BasisNetwork` are not populated, so the
produced record is modelled with exactly the fields the source sets. -/
structure ProducedBasisNetwork where
  id : Nat
  description : String
  relationship : AnalysisNetworkRelationship

/-- The literal returned by `NetworkAnalysis::get_basis_network`: a fresh id,
the hard-coded description `"Placeholder Description"`, and an unconditional
`Recursion` relationship over an empty lineage and an empty QuickJS code
body. -/
def produced_basis_network (fresh_id fresh_transform_id : Nat) : ProducedBasisNetwork :=
  ⟨fresh_id, "Placeholder Description",
    AnalysisNetworkRelationship.recursionRel
      ⟨Lineage.new, ⟨fresh_transform_id, Runtime.QuickJS, ""⟩⟩⟩

/-- Model of `NetworkAnalysis::get_basis_network` from `src/analysis.rs`: run the merge
walk over the subgraph (its result is only logged), then return the
placeholder basis network. -/
def get_basis_network
    (lookup : Lineage → Except Errors (Option BasisNode))
    (contexts : Nat → Option Context)
    (transform : FieldTransformation → DataNode → TransformOutcome)
    (fresh_id fresh_transform_id : Nat)
    (graph : GraphNode) : RunResult ProducedBasisNetwork :=
  match walk_merge lookup contexts transform [graph] [] with
  | RunResult.err e => RunResult.err e
  | RunResult.panicked m => RunResult.panicked m
  | RunResult.ok _ => RunResult.ok (produced_basis_network fresh_id fresh_transform_id)

/-- Model of `try_join_all` over already-dispatched tasks: collect all results, the
first error or panic failing the phase. -/
def run_all {α : Type} : List (RunResult α) → RunResult (List α)
  | [] => RunResult.ok []
  | RunResult.ok a :: rest =>
    match run_all rest with
    | RunResult.ok as' => RunResult.ok (a :: as')
    | RunResult.err e => RunResult.err e
    | RunResult.panicked m => RunResult.panicked m
  | RunResult.err e :: _ => RunResult.err e
  | RunResult.panicked m :: _ => RunResult.panicked m

/-- Model of `NetworkAnalysis::get_basis_networks` from `src/analysis.rs` under a
sequential schedule: Phase A discovers the unique subgraphs, then each
representative is processed by `get_basis_network`. -/
def get_basis_networks
    (lookup : Lineage → Except Errors (Option BasisNode))
    (contexts : Nat → Option Context)
    (transform : FieldTransformation → DataNode → TransformOutcome)
    (fresh_id fresh_transform_id : Nat)
    (root : GraphNode) : RunResult (List ProducedBasisNetwork) :=
  run_all ((unique_subgraphs root).map (fun p =>
    get_basis_network lookup contexts transform fresh_id fresh_transform_id p.2))

/-- Model of `NetworkAnalysis::new` from `src/analysis.rs`: compute the basis networks
and then hit the `unimplemented!()` macro, which panics with the message
`"not implemented"`. -/
def NetworkAnalysis.new
    (lookup : Lineage → Except Errors (Option BasisNode))
    (contexts : Nat → Option Context)
    (transform : FieldTransformation → DataNode → TransformOutcome)
    (fresh_id fresh_transform_id : Nat)
    (root : GraphNode) : RunResult Unit :=
  match get_basis_networks lookup contexts transform fresh_id fresh_transform_id root with
  | RunResult.err e => RunResult.err e
  | RunResult.panicked m => RunResult.panicked m
  | RunResult.ok _ => RunResult.panicked "not implemented"

/-- Model of `NodeAnalysis::get_basis_nodes` from `src/analysis.rs` under a sequential
schedule: process the context groups in order against the shared provider
store, threading each group's saves into the store seen by later groups. -/
def get_basis_nodes_seq
    (oracle : ContextGroup → Except Errors (List FieldTransformation))
    (fresh_id : Nat) :
    List BasisNode → List ContextGroup → RunResult (List BasisNode × List BasisNode)
  | store, [] => RunResult.ok ([], store)
  | store, g :: rest =>
    match get_basis_node (fun l => Except.ok (get_basis_node_by_lineage store l))
        oracle fresh_id g with
    | RunResult.err e => RunResult.err e
    | RunResult.panicked m => RunResult.panicked m
    | RunResult.ok (b, _, saves) =>
      let store2 := saves.foldl (fun s lb => save_basis_node s lb.1 lb.2) store
      match get_basis_nodes_seq oracle fresh_id store2 rest with
      | RunResult.ok (bs, st) => RunResult.ok (b :: bs, st)
      | RunResult.err e => RunResult.err e
      | RunResult.panicked m => RunResult.panicked m

/-- Model of `Analysis::start` from `src/analysis.rs`: node analysis, then network
analysis; the analysis value is returned only if both phases complete. -/
def Analysis.start
    (oracle : ContextGroup → Except Errors (List FieldTransformation))
    (fresh_id : Nat) (store : List BasisNode) (groups : List ContextGroup)
    (contexts : Nat → Option Context)
    (transform : FieldTransformation → DataNode → TransformOutcome)
    (net_fresh_id net_fresh_transform_id : Nat)
    (root : GraphNode) : RunResult Unit :=
  match get_basis_nodes_seq oracle fresh_id store groups with
  | RunResult.err e => RunResult.err e
  | RunResult.panicked m => RunResult.panicked m
  | RunResult.ok (_, st) =>
    NetworkAnalysis.new (fun l => Except.ok (get_basis_node_by_lineage st l))
      contexts transform net_fresh_id net_fresh_transform_id root

/-- Events of the dispatch loops in `NodeAnalysis::get_basis_nodes` and
`NetworkAnalysis::get_basis_networks` (`src/analysis.rs`).  Each loop
iteration acquires a semaphore permit, spawns the task, and then drops the
permit when the iteration's scope ends: the `async move` block does not
capture `_permit`, so the permit is returned to the gate before the next
iteration, not when the task finishes. -/
inductive GateEvent where
  | acquire
  | spawnTask
  | release
deriving DecidableEq

/-- The event trace the dispatch loop produces for `n` groups. -/
def dispatch_events : Nat → List GateEvent
  | 0 => []
  | n + 1 => GateEvent.acquire :: GateEvent.spawnTask :: GateEvent.release ::
      dispatch_events n

/-- Execute a gate trace under the schedule in which no spawned task has yet
finished (tasks hold no permit, so nothing else ever releases one).  State:
available permits, tasks currently in flight, maximum in flight so far.
Returns `none` if an acquisition would block forever. -/
def gate_run (avail in_flight max_in_flight : Nat) :
    List GateEvent → Option (Nat × Nat)
  | [] => some (in_flight, max_in_flight)
  | GateEvent.acquire :: rest =>
    match avail with
    | 0 => none
    | a + 1 => gate_run a in_flight max_in_flight rest
  | GateEvent.spawnTask :: rest =>
    gate_run avail (in_flight + 1) (max max_in_flight (in_flight + 1)) rest
  | GateEvent.release :: rest =>
    gate_run (avail + 1) in_flight max_in_flight rest

/-! Concrete inputs used by closed witnesses and counterexamples. -/

def one_hash_set : Finset Hash := {⟨1, true⟩}

def five_hash_set : Finset Hash := {⟨1, true⟩, ⟨2, true⟩, ⟨3, true⟩, ⟨4, true⟩, ⟨5, true⟩}

def four_hash_set : Finset Hash := {⟨1, true⟩, ⟨2, true⟩, ⟨3, true⟩, ⟨4, true⟩}

def profile_full : Profile := ⟨1, "full overlap", one_hash_set, none, none, none⟩

def profile_boundary : Profile := ⟨2, "four of five features", four_hash_set, none, none, none⟩

def w_lineage : Lineage := Lineage.from_hashes [⟨3, true⟩]

def w_data_node : DataNode := ⟨[("field", "value")], "w node", ⟨3, true⟩, w_lineage⟩

def w_context : Context := ⟨w_data_node, w_lineage⟩

def w_group : ContextGroup := ⟨w_lineage, [w_context]⟩

def w_transformations : List FieldTransformation := [⟨0, Runtime.QuickJS, "wcode"⟩]

def w_oracle : ContextGroup → Except Errors (List FieldTransformation) :=
  fun _ => Except.ok w_transformations

def w_stored : BasisNode := ⟨5, ⟨3, true⟩, "stored", w_lineage, []⟩

def w_new_node : BasisNode := ⟨7, ⟨3, true⟩, "w node", w_lineage, w_transformations⟩

def s_lineage : Lineage := Lineage.from_hashes [⟨1, true⟩]

def s_node_one : BasisNode := ⟨1, ⟨1, true⟩, "first save", s_lineage, []⟩

def s_node_two : BasisNode := ⟨2, ⟨1, true⟩, "second save", s_lineage, []⟩

def f_lineage : Lineage := Lineage.from_hashes [⟨9, true⟩]

def f_data_node : DataNode := ⟨[("k", "v")], "f node", ⟨9, true⟩, f_lineage⟩

def f_context : Context := ⟨f_data_node, f_lineage⟩

def f_transformation : FieldTransformation := ⟨0, Runtime.QuickJS, "malformed code"⟩

def f_basis_node : BasisNode := ⟨0, ⟨9, true⟩, "f node", f_lineage, [f_transformation]⟩

def f_graph : GraphNode := GraphNode.node 0 "root" "hash0" []

def f_contexts : Nat → Option Context := fun _ => some f_context

def f_lookup : Lineage → Except Errors (Option BasisNode) :=
  fun _ => Except.ok (some f_basis_node)

def f_transform : FieldTransformation → DataNode → TransformOutcome :=
  fun _ _ => TransformOutcome.failure "SyntaxError: unexpected token"

/-! Theorems. -/

/-- C6: for all Lineages, equality holds iff the identity hashes are equal;
the retained source-hash sequences play no part in equality, so equal
identity hashes force equal Lineages regardless of the source vectors; and
`with_hash` recomputes the identity hash over the entire resulting source
sequence. -/
theorem lineage_eq_identity_hash :
    (∀ l1 l2 : Lineage, lineage_eq l1 l2 = true ↔ l1.identity_hash = l2.identity_hash) ∧
    (∀ l1 l2 : Lineage, l1.identity_hash = l2.identity_hash → lineage_eq l1 l2 = true) ∧
    ∀ (l : Lineage) (h : Hash),
      (l.with_hash h).source_hashes = l.source_hashes ++ [h] ∧
      (l.with_hash h).identity_hash = derive_identity (l.source_hashes ++ [h]) := by
  refine ⟨fun l1 l2 => ?_, fun l1 l2 h => ?_, fun l h => ⟨rfl, rfl⟩⟩
  · simp [lineage_eq]
  · simp [lineage_eq, h]

/-- Witness for C6: two concrete Lineages with different source-hash vectors
but the same identity hash compare equal. -/
theorem lineage_eq_identity_hash_witness :
    lineage_eq ⟨[⟨1, true⟩], ⟨7, true⟩⟩ ⟨[⟨2, true⟩], ⟨7, true⟩⟩ = true ∧
    (⟨[⟨1, true⟩], ⟨7, true⟩⟩ : Lineage).source_hashes ≠
      (⟨[⟨2, true⟩], ⟨7, true⟩⟩ : Lineage).source_hashes :=
  ⟨lineage_eq_identity_hash.2.1 ⟨[⟨1, true⟩], ⟨7, true⟩⟩ ⟨[⟨2, true⟩], ⟨7, true⟩⟩ rfl,
   by decide⟩

/-- Counterexample for C5: a stored profile whose Jaccard similarity with the
query is exactly `0.8` is not returned — the source comparison is the strict
`similarity > 0.8`, so the claimed at-least-`0.8` threshold fails at the
boundary. -/
theorem get_similar_profile_threshold_counterexample :
    jaccard_similarity five_hash_set profile_boundary.features = 4 / 5 ∧
    Profile.get_similar_profile [profile_boundary] five_hash_set = none := by
  have hi : (five_hash_set ∩ profile_boundary.features).card = 4 := by decide
  have hu : (five_hash_set ∪ profile_boundary.features).card = 5 := by decide
  have hne : (five_hash_set ∪ profile_boundary.features) ≠ ∅ := by decide
  have hsim : jaccard_similarity five_hash_set profile_boundary.features = 4 / 5 := by
    simp [jaccard_similarity, hi, hu, hne]
  have hpred :
      decide (jaccard_similarity five_hash_set profile_boundary.features > (4 : ℚ) / 5) =
        false := by
    rw [hsim]; norm_num
  refine ⟨hsim, ?_⟩
  simp [Profile.get_similar_profile, List.find?, hpred]

/-- C5 (amended): `get_similar_profile` returns a profile iff some stored
profile's Jaccard similarity with the query is strictly greater than `0.8`,
and the returned profile is the first one in stored order exceeding the
threshold; a profile at exactly `0.8` does not qualify. -/
theorem get_similar_profile_strict_first_match
    (profiles : List Profile) (features : Finset Hash) :
    (Profile.get_similar_profile profiles features = none ↔
      ∀ p ∈ profiles, jaccard_similarity features p.features ≤ 4 / 5) ∧
    ∀ p, Profile.get_similar_profile profiles features = some p →
      jaccard_similarity features p.features > 4 / 5 ∧
      ∃ pre post, profiles = pre ++ p :: post ∧
        ∀ q ∈ pre, jaccard_similarity features q.features ≤ 4 / 5 := by
  induction profiles with
  | nil => exact ⟨by simp [Profile.get_similar_profile], fun p hp => by
      simp [Profile.get_similar_profile] at hp⟩
  | cons a rest ih =>
    by_cases ha : jaccard_similarity features a.features > 4 / 5
    · constructor
      · have hsome : Profile.get_similar_profile (a :: rest) features = some a := by
          simp [Profile.get_similar_profile, List.find?, ha]
        rw [hsome]
        constructor
        · intro h; simp at h
        · intro h
          exact absurd ha (not_lt.mpr (h a (List.mem_cons_self a rest)))
      · intro p hp
        have hpa : p = a := by
          simp [Profile.get_similar_profile, List.find?, ha] at hp
          exact hp.symm
        subst hpa
        exact ⟨ha, [], rest, rfl, by simp⟩
    · have hfind : Profile.get_similar_profile (a :: rest) features =
          Profile.get_similar_profile rest features := by
        simp [Profile.get_similar_profile, List.find?, ha]
      constructor
      · rw [hfind, ih.1]
        constructor
        · intro h p hp
          rcases List.mem_cons.mp hp with h1 | h2
          · exact h1 ▸ not_lt.mp ha
          · exact h p h2
        · intro h p hp
          exact h p (List.mem_cons_of_mem a hp)
      · intro p hp
        rw [hfind] at hp
        obtain ⟨hgt, pre, post, hsplit, hpre⟩ := ih.2 p hp
        refine ⟨hgt, a :: pre, post, by simp [hsplit], ?_⟩
        intro q hq
        rcases List.mem_cons.mp hq with h1 | h2
        · exact h1 ▸ not_lt.mp ha
        · exact hpre q h2

/-- Witness for C5: a fully overlapping profile (similarity `1 > 0.8`) is
returned as the first match. -/
theorem get_similar_profile_strict_first_match_witness :
    jaccard_similarity one_hash_set profile_full.features > 4 / 5 ∧
    Profile.get_similar_profile [profile_full] one_hash_set = some profile_full := by
  have hi : (one_hash_set ∩ profile_full.features).card = 1 := by decide
  have hu : (one_hash_set ∪ profile_full.features).card = 1 := by decide
  have hne : (one_hash_set ∪ profile_full.features) ≠ ∅ := by decide
  have hsim : jaccard_similarity one_hash_set profile_full.features = 1 := by
    simp [jaccard_similarity, hi, hu, hne]
  have hpred :
      decide (jaccard_similarity one_hash_set profile_full.features > (4 : ℚ) / 5) =
        true := by
    rw [hsim]; norm_num
  have hfind : Profile.get_similar_profile [profile_full] one_hash_set =
      some profile_full := by
    simp [Profile.get_similar_profile, List.find?, hpred]
  exact ⟨((get_similar_profile_strict_first_match [profile_full] one_hash_set).2
    profile_full hfind).1, hfind⟩

/-- C10: Jaccard similarity of two empty feature sets is `1.0` (the
empty-union branch, no division by zero), so a query with an empty feature
set returns exactly the first stored profile whose feature set is empty. -/
theorem jaccard_empty_sets_and_empty_query (profiles : List Profile) :
    jaccard_similarity ∅ ∅ = 1 ∧
    Profile.get_similar_profile profiles ∅ =
      profiles.find? (fun p => decide (p.features = ∅)) := by
  constructor
  · simp [jaccard_similarity]
  · induction profiles with
    | nil => rfl
    | cons a rest ih =>
      have hpred : decide (jaccard_similarity ∅ a.features > (4 : ℚ) / 5) =
          decide (a.features = ∅) := by
        by_cases ha : a.features = ∅
        · simp [jaccard_similarity, ha]
          norm_num
        · have hu : (∅ ∪ a.features : Finset Hash) = a.features := Finset.empty_union _
          have hval : jaccard_similarity ∅ a.features = 0 := by
            simp [jaccard_similarity, hu, ha]
          simp [hval, ha]
          norm_num
      simp only [Profile.get_similar_profile, List.find?] at *
      rw [hpred]
      cases hd : decide (a.features = ∅) with
      | true => rfl
      | false => exact ih

/-- C9: the YAML-file provider's `save_basis_node` unconditionally appends
(no idempotent upsert) and `get_basis_node_by_lineage` returns the first
stored match; after two saves under the same (previously absent) Lineage both
records are in the store and every subsequent lookup — also after any further
appends — returns the first-saved node, while a single save to a previously
absent Lineage is returned by the following lookup. -/
theorem save_append_first_writer_wins
    (store rest : List BasisNode) (l : Lineage) (b1 b2 : BasisNode)
    (habsent : get_basis_node_by_lineage store l = none)
    (h1 : lineage_eq b1.lineage l = true)
    (h2 : lineage_eq b2.lineage l = true) :
    (∀ (s : List BasisNode) (l2 : Lineage) (b : BasisNode),
      save_basis_node s l2 b = s ++ [b]) ∧
    save_basis_node (save_basis_node store l b1) l b2 = store ++ [b1, b2] ∧
    b1 ∈ save_basis_node (save_basis_node store l b1) l b2 ∧
    b2 ∈ save_basis_node (save_basis_node store l b1) l b2 ∧
    get_basis_node_by_lineage (save_basis_node store l b1) l = some b1 ∧
    get_basis_node_by_lineage
      (save_basis_node (save_basis_node store l b1) l b2 ++ rest) l = some b1 := by
  have hfind : store.find? (fun bn => lineage_eq bn.lineage l) = none := habsent
  have happ : ∀ (tail : List BasisNode),
      get_basis_node_by_lineage (store ++ b1 :: tail) l = some b1 := by
    intro tail
    unfold get_basis_node_by_lineage
    rw [List.find?_append, hfind]
    simp [List.find?, h1]
  refine ⟨fun s l2 b => rfl, by simp [save_basis_node], by simp [save_basis_node],
    by simp [save_basis_node], ?_, ?_⟩
  · simpa [save_basis_node] using happ []
  · simpa [save_basis_node] using happ ([b2] ++ rest)

/-- Witness for C9 at a concrete store. -/
theorem save_append_first_writer_wins_witness :
    get_basis_node_by_lineage
      (save_basis_node (save_basis_node [] s_lineage s_node_one) s_lineage s_node_two ++ [])
      s_lineage = some s_node_one ∧
    get_basis_node_by_lineage (save_basis_node [] s_lineage s_node_one) s_lineage =
      some s_node_one := by
  have h := save_append_first_writer_wins [] [] s_lineage s_node_one s_node_two
    rfl (by decide) (by decide)
  exact ⟨h.2.2.2.2.2, h.2.2.2.2.1⟩

/-- C1: `get_basis_node` on a context group whose representative context
exists: a provider hit is returned verbatim with no oracle call and no save;
a provider miss invokes the oracle once, assembles the new basis node from
the fresh id, the representative's hash and description, the group's lineage
and the oracle's transformations, saves it keyed by that lineage, and
returns it. -/
theorem get_basis_node_memoization
    (lookup : Lineage → Except Errors (Option BasisNode))
    (oracle : ContextGroup → Except Errors (List FieldTransformation))
    (fresh_id : Nat) (context_group : ContextGroup) (c : Context)
    (hc : context_group.contexts.head? = some c) :
    (∀ b, lookup context_group.lineage = Except.ok (some b) →
      get_basis_node lookup oracle fresh_id context_group = RunResult.ok (b, 0, [])) ∧
    ∀ ts, lookup context_group.lineage = Except.ok none →
      oracle context_group = Except.ok ts →
      get_basis_node lookup oracle fresh_id context_group =
        RunResult.ok
          (⟨fresh_id, c.data_node.hash, c.data_node.description, context_group.lineage, ts⟩,
            1,
            [(context_group.lineage,
              ⟨fresh_id, c.data_node.hash, c.data_node.description,
                context_group.lineage, ts⟩)]) := by
  constructor
  · intro b hb
    simp [get_basis_node, hc, hb]
  · intro ts hl ho
    simp [get_basis_node, hc, hl, ho]

/-- Witness for C1: both the memoized branch and the oracle branch at
concrete inputs. -/
theorem get_basis_node_memoization_witness :
    get_basis_node (fun _ => Except.ok (some w_stored)) w_oracle 7 w_group =
      RunResult.ok (w_stored, 0, []) ∧
    get_basis_node (fun _ => Except.ok none) w_oracle 7 w_group =
      RunResult.ok (w_new_node, 1, [(w_group.lineage, w_new_node)]) := by
  constructor
  · exact (get_basis_node_memoization (fun _ => Except.ok (some w_stored)) w_oracle 7
      w_group w_context rfl).1 w_stored rfl
  · exact (get_basis_node_memoization (fun _ => Except.ok none) w_oracle 7
      w_group w_context rfl).2 w_transformations rfl rfl

/-- Helper for C4: running the dispatch trace from any state with at least
one available permit never blocks, and every spawned task stays in flight. -/
theorem gate_run_dispatch_events (n : Nat) :
    ∀ (cap in_flight max_in_flight : Nat), in_flight ≤ max_in_flight →
      gate_run (cap + 1) in_flight max_in_flight (dispatch_events n) =
        some (in_flight + n, max max_in_flight (in_flight + n)) := by
  induction n with
  | zero =>
    intro cap in_flight max_in_flight hle
    simp [dispatch_events, gate_run, Nat.max_eq_left hle]
  | succ m ih =>
    intro cap in_flight max_in_flight hle
    have step := ih (cap) (in_flight + 1) (max max_in_flight (in_flight + 1))
      (Nat.le_max_right _ _)
    simp only [dispatch_events, gate_run] at *
    rw [step]
    have hmax : max (max max_in_flight (in_flight + 1)) (in_flight + 1 + m) =
        max max_in_flight (in_flight + (m + 1)) := by omega
    rw [hmax]
    have harith : in_flight + 1 + m = in_flight + (m + 1) := by omega
    rw [harith]

/-- C4 fails on the code: the semaphore permit acquired before each dispatch
is dropped at the end of that loop iteration (the spawned task does not
capture `_permit`), so the admission gate only serializes dispatch.  Under
the schedule where no task has finished yet, a gate of any capacity
`cap + 1` admits all `n` spawned tasks simultaneously: the run never blocks
and the maximum number of tasks in flight is `n`, not `min n (cap + 1)`. -/
theorem admission_gate_unbounded_in_flight (n cap : Nat) :
    gate_run (cap + 1) 0 0 (dispatch_events n) = some (n, n) := by
  have h := gate_run_dispatch_events n cap 0 0 (Nat.le_refl 0)
  simpa using h

/-- Helper for C3: `NetworkAnalysis::new` never produces a value — every
branch of the final match yields an error or the `unimplemented!()` panic. -/
theorem network_analysis_new_not_ok
    (lookup : Lineage → Except Errors (Option BasisNode))
    (contexts : Nat → Option Context)
    (transform : FieldTransformation → DataNode → TransformOutcome)
    (fresh_id fresh_transform_id : Nat) (root : GraphNode) :
    RunResult.isOk
      (NetworkAnalysis.new lookup contexts transform fresh_id fresh_transform_id root) =
      false := by
  unfold NetworkAnalysis.new
  cases hg : get_basis_networks lookup contexts transform fresh_id fresh_transform_id root <;>
    rfl

/-- C3 fails on the code: `NetworkAnalysis::new` ends in `unimplemented!()`,
so `Analysis::start` never returns an analysis; and the per-subgraph basis
network the source constructs is the hard-coded placeholder (description
`"Placeholder Description"`, unconditional `Recursion` relationship, no
subgraph hash field populated). -/
theorem analysis_start_never_completes
    (oracle : ContextGroup → Except Errors (List FieldTransformation))
    (fresh_id : Nat) (store : List BasisNode) (groups : List ContextGroup)
    (contexts : Nat → Option Context)
    (transform : FieldTransformation → DataNode → TransformOutcome)
    (net_fresh_id net_fresh_transform_id : Nat) (root : GraphNode) :
    RunResult.isOk
      (Analysis.start oracle fresh_id store groups contexts transform
        net_fresh_id net_fresh_transform_id root) = false ∧
    ∀ fid ftid, (produced_basis_network fid ftid).description = "Placeholder Description" ∧
      ((produced_basis_network fid ftid).relationship).isRecursion = true := by
  constructor
  · unfold Analysis.start
    cases hn : get_basis_nodes_seq oracle fresh_id store groups with
    | ok v =>
      obtain ⟨bs, st⟩ := v
      exact network_analysis_new_not_ok _ _ _ _ _ _
    | err e => rfl
    | panicked m => rfl
  · intro fid ftid
    exact ⟨rfl, rfl⟩

/-- C8 fails on the code: a Field Transformation that fails during the
network-analysis merge walk is not surfaced as an explicit `Errors` value —
the call site unwraps it with `expect("Could not transform data node field")`,
aborting the task with a panic (and the same panic fires for the elimination
outcome, so failure is not distinguishable from elimination at this point
either).  At a concrete subgraph whose basis node carries one failing
transformation, the walk ends in the panic, not in `RunResult.err`. -/
theorem transform_failure_panics_not_error :
    walk_merge f_lookup f_contexts f_transform [f_graph] [] =
      RunResult.panicked "Could not transform data node field" := by
  simp [walk_merge, f_lookup, f_contexts, f_transform, f_graph, f_context, f_basis_node,
    apply_transformations, f_transformation, GraphNode.children, GraphNode.id]

/-- Helper: the accumulated value under the merged key after one merge step,
as a function of the previously stored value. -/
theorem lookup_key_merge_json_pair_same
    (m : List (String × JsonValue)) (k : String) (v : JsonValue) :
    lookup_key (merge_json_pair m k v) k =
      match lookup_key m k with
      | none => some v
      | some (JsonValue.arr vs) => some (JsonValue.arr (vs ++ [v]))
      | some w => some (JsonValue.arr [w, v]) := by
  induction m with
  | nil => simp [merge_json_pair, lookup_key]
  | cons p rest ih =>
    obtain ⟨k1, v1⟩ := p
    by_cases hk : k1 = k
    · subst hk
      cases v1 with
      | str s => simp [merge_json_pair, lookup_key]
      | arr vs => simp [merge_json_pair, lookup_key]
    · have hkb : (k1 == k) = false := by simp [hk]
      simpa [merge_json_pair, lookup_key, hkb] using ih

/-- Helper: one merge step leaves every other key's accumulated value
unchanged. -/
theorem lookup_key_merge_json_pair_ne
    (m : List (String × JsonValue)) (k : String) (v : JsonValue) (k2 : String)
    (h : k2 ≠ k) :
    lookup_key (merge_json_pair m k v) k2 = lookup_key m k2 := by
  have hkk2 : (k == k2) = false := by simp; exact fun he => h he.symm
  induction m with
  | nil => simp [merge_json_pair, lookup_key, hkk2]
  | cons p rest ih =>
    obtain ⟨k1, v1⟩ := p
    by_cases hk : k1 = k
    · subst hk
      cases v1 with
      | str s => simp [merge_json_pair, lookup_key, hkk2]
      | arr vs => simp [merge_json_pair, lookup_key, hkk2]
    · have hkb : (k1 == k) = false := by simp [hk]
      by_cases hk2 : k1 = k2
      · subst hk2
        simp [merge_json_pair, lookup_key, hkb]
      · have hkb2 : (k1 == k2) = false := by simp [hk2]
        simpa [merge_json_pair, lookup_key, hkb, hkb2] using ih

/-- Helper: appending one more occurrence to a key's occurrence list promotes
the accumulated value exactly the way one merge step does. -/
theorem accumulated_value_append (l : List String) (v : String) :
    accumulated_value (l ++ [v]) =
      match accumulated_value l with
      | none => some (JsonValue.str v)
      | some (JsonValue.arr vs) => some (JsonValue.arr (vs ++ [JsonValue.str v]))
      | some w => some (JsonValue.arr [w, JsonValue.str v]) := by
  match l with
  | [] => simp [accumulated_value]
  | [x] => simp [accumulated_value]
  | x :: y :: rest => simp [accumulated_value]

/-- Helper: folding a stream of JSON nodes into an accumulator whose every
key already holds the accumulated value of its occurrences so far yields, for
every key, the accumulated value of all its occurrences. -/
theorem merge_fold_lookup (json_nodes : List JsonNodeData) :
    ∀ (m : List (String × JsonValue)) (occ : String → List String),
      (∀ k, lookup_key m k = accumulated_value (occ k)) →
      ∀ key,
        lookup_key
          (json_nodes.foldl
            (fun r j => merge_json_pair r j.key (JsonValue.str j.value.trim)) m)
          key =
        accumulated_value
          (occ key ++ (json_nodes.filter (fun j => j.key == key)).map
            (fun j => j.value.trim)) := by
  induction json_nodes with
  | nil =>
    intro m occ hm key
    simpa using hm key
  | cons j rest ih =>
    intro m occ hm key
    simp only [List.foldl_cons]
    have hm2 : ∀ k,
        lookup_key (merge_json_pair m j.key (JsonValue.str j.value.trim)) k =
          accumulated_value (occ k ++ if j.key == k then [j.value.trim] else []) := by
      intro k
      by_cases hk : j.key = k
      · subst hk
        rw [lookup_key_merge_json_pair_same, hm j.key]
        simp only [beq_self_eq_true, if_true]
        rw [accumulated_value_append]
      · have hkb : (j.key == k) = false := by simp [hk]
        rw [lookup_key_merge_json_pair_ne _ _ _ _ (fun he => hk he.symm), hm k, hkb]
        simp
    rw [ih _ _ hm2 key]
    congr 1
    by_cases hk : (j.key == key) = true
    · simp [List.filter_cons, hk]
    · simp [List.filter_cons, hk]

/-- C2: in the per-subgraph merge of network analysis (the accumulation step
`merge_json_pair` executed for every JSON node produced in BFS visitation
order), a key occurring exactly once accumulates to its single trimmed scalar
value, and a key occurring `n ≥ 2` times accumulates to the ordered array of
its trimmed values in visitation order (the second occurrence replaces the
scalar with the two-element array of the original then the new value, and
each later occurrence appends). -/
theorem merge_scalar_array_promotion (json_nodes : List JsonNodeData) (key : String) :
    lookup_key (merge_json_pairs json_nodes) key =
      accumulated_value
        ((json_nodes.filter (fun j => j.key == key)).map (fun j => j.value.trim)) := by
  have h := merge_fold_lookup json_nodes [] (fun _ => []) (fun k => rfl) key
  simpa [merge_json_pairs] using h

/-- Helper: key membership agrees with lookup success. -/
theorem contains_key_eq_isSome {α : Type} (l : List (String × α)) (k : String) :
    contains_key l k = (lookup_key l k).isSome := by
  induction l with
  | nil => rfl
  | cons p rest ih =>
    cases hk : (p.1 == k) with
    | true => simp [contains_key, lookup_key, List.find?_cons, hk]
    | false =>
      simp only [contains_key, lookup_key, List.any_cons, List.find?_cons, hk] at *
      simpa using ih

/-- Helper: first-binding lookup distributes over append. -/
theorem lookup_key_append {α : Type} (l1 l2 : List (String × α)) (k : String) :
    lookup_key (l1 ++ l2) k =
      match lookup_key l1 k with
      | some v => some v
      | none => lookup_key l2 k := by
  unfold lookup_key
  rw [List.find?_append]
  cases h : l1.find? (fun p => p.1 == k) <;> simp [Option.orElse]

/-- Helper: every entry the Phase A loop adds to the map is a non-leaf node. -/
theorem unique_subgraphs_loop_all_nonleaf :
    ∀ (queue : List GraphNode) (acc : List (String × GraphNode)),
      acc.all (fun p => !p.2.children.isEmpty) = true →
      (unique_subgraphs_loop queue acc).all (fun p => !p.2.children.isEmpty) = true := by
  intro queue acc
  induction queue, acc using unique_subgraphs_loop.induct with
  | case1 acc =>
    intro h
    simpa [unique_subgraphs_loop] using h
  | case2 current rest acc hleaf ih =>
    intro h
    rw [unique_subgraphs_loop]
    simp only [hleaf, if_true]
    exact ih h
  | case3 current rest acc hleaf acc2 ih =>
    intro h
    rw [unique_subgraphs_loop, if_neg hleaf]
    have hnl : (!current.children.isEmpty) = true := by
      simpa using hleaf
    unfold acc2 at ih
    cases hc : contains_key acc current.subgraph_hash with
    | true =>
      simp only [hc] at ih ⊢
      exact ih h
    | false =>
      simp only [hc] at ih ⊢
      simp only [Bool.false_eq_true, if_false] at ih ⊢
      apply ih
      simp [List.all_append, h, hnl]

/-- Helper: the Phase A loop's map, looked up at any hash, yields the entry
already in the accumulator or else the first non-leaf node carrying that hash
in the breadth-first order of the remaining queue. -/
theorem unique_subgraphs_loop_lookup :
    ∀ (queue : List GraphNode) (acc : List (String × GraphNode)) (h : String),
      lookup_key (unique_subgraphs_loop queue acc) h =
        match lookup_key acc h with
        | some g => some g
        | none => first_nonleaf_with_hash (bfs_order queue) h := by
  intro queue acc
  induction queue, acc using unique_subgraphs_loop.induct with
  | case1 acc =>
    intro h
    rw [unique_subgraphs_loop]
    rw [bfs_order]
    cases hl : lookup_key acc h <;> simp [first_nonleaf_with_hash]
  | case2 current rest acc hleaf ih =>
    intro h
    have hnil : current.children = [] := List.isEmpty_iff.mp hleaf
    rw [unique_subgraphs_loop]
    simp only [hleaf, if_true]
    rw [ih h]
    rw [bfs_order]
    have hpred : (!current.children.isEmpty && current.subgraph_hash == h) = false := by
      simp [hleaf]
    cases hl : lookup_key acc h <;>
      simp [first_nonleaf_with_hash, List.find?_cons, hpred, hnil]
  | case3 current rest acc hleaf acc2 ih =>
    intro h
    have hnl : current.children.isEmpty = false := by
      simpa using hleaf
    rw [unique_subgraphs_loop, if_neg hleaf]
    unfold acc2 at ih
    rw [bfs_order]
    by_cases hc : contains_key acc current.subgraph_hash = true
    · simp only [hc, if_true]
      rw [dif_pos hc] at ih
      rw [ih h]
      cases hl : lookup_key acc h with
      | some g => simp
      | none =>
        have hne : (current.subgraph_hash == h) = false := by
          by_cases hh : current.subgraph_hash = h
          · exfalso
            rw [contains_key_eq_isSome, hh, hl] at hc
            simp at hc
          · simp [hh]
        simp [first_nonleaf_with_hash, List.find?_cons, hne]
    · have hc2 : contains_key acc current.subgraph_hash = false := by
        simpa using hc
      simp only [hc2, Bool.false_eq_true, if_false]
      rw [dif_neg hc] at ih
      rw [ih h, lookup_key_append]
      cases hl : lookup_key acc h with
      | some g => simp
      | none =>
        by_cases hh : current.subgraph_hash = h
        · subst hh
          have hpred : (!current.children.isEmpty &&
              current.subgraph_hash == current.subgraph_hash) = true := by
            simp [hnl]
          simp [lookup_key, List.find?_cons, first_nonleaf_with_hash, hpred, hnl]
        · have hne : (current.subgraph_hash == h) = false := by simp [hh]
          simp [lookup_key, List.find?_cons, first_nonleaf_with_hash, hne]

/-- C7: Phase A of network analysis never records a leaf node in the
unique-subgraph map, and the representative recorded for each subgraph hash
is exactly the first non-leaf node carrying that hash in breadth-first order
from the root. -/
theorem unique_subgraphs_skip_leaves_first_representative (root : GraphNode) :
    (unique_subgraphs root).all (fun p => !p.2.children.isEmpty) = true ∧
    ∀ h, lookup_key (unique_subgraphs root) h =
      first_nonleaf_with_hash (bfs_order [root]) h := by
  constructor
  · exact unique_subgraphs_loop_all_nonleaf [root] [] rfl
  · intro h
    have hloop := unique_subgraphs_loop_lookup [root] [] h
    simpa [unique_subgraphs, lookup_key] using hloop

end Parversion
